import Mathlib

/-!
Verification of the NT_MT5_Adapter repository: a shallow embedding of the
adapter's data-synchronization and order-mapping logic, with theorems checking
the natural-language specification against the code.

Each definition is translated from a named Python function of the repository;
the source file and symbol are given in the doc comment.
-/

namespace NautilusMt5

/-! ### Broker constants (src/nautilus_mt5_adapter/constants.py) -/

namespace Mt5RetCode

/-- `Mt5RetCode.DONE = 10009` ("Request completed"). -/
def DONE : ℤ := 10009

/-- `Mt5RetCode.PLACED = 10008` ("Order placed"). -/
def PLACED : ℤ := 10008

/-- `Mt5RetCode.REJECT = 10006` ("Request rejected"). -/
def REJECT : ℤ := 10006

end Mt5RetCode

namespace Mt5OrderType

/-- `Mt5OrderType.BUY = 0` (market buy order). -/
def BUY : ℤ := 0

/-- `Mt5OrderType.SELL = 1` (market sell order). -/
def SELL : ℤ := 1

/-- `Mt5OrderType.BUY_LIMIT = 2`. -/
def BUY_LIMIT : ℤ := 2

/-- `Mt5OrderType.SELL_LIMIT = 3`. -/
def SELL_LIMIT : ℤ := 3

/-- `Mt5OrderType.BUY_STOP = 4`. -/
def BUY_STOP : ℤ := 4

/-- `Mt5OrderType.SELL_STOP = 5`. -/
def SELL_STOP : ℤ := 5

end Mt5OrderType

/-! ### Order submission (src/nautilus_mt5_adapter/execution.py) -/

/-- Nautilus order side, as consumed by `Mt5ExecutionClient._convert_order_type`. -/
inductive OrderSide
  | buy
  | sell
deriving DecidableEq, Repr

/-- Nautilus order type, as consumed by `Mt5ExecutionClient._convert_order_type`.
`stopLimit` and `other` both fall into the final `else` branch of the Python
`elif` chain. -/
inductive OrderKind
  | market
  | limit
  | stopMarket
  | stopLimit
  | other
deriving DecidableEq, Repr

/-- `Mt5ExecutionClient._convert_order_type` (execution.py lines 417-434). -/
def convertOrderType (side : OrderSide) (kind : OrderKind) : ℤ :=
  match kind with
  | .market => if side = .buy then Mt5OrderType.BUY else Mt5OrderType.SELL
  | .limit => if side = .buy then Mt5OrderType.BUY_LIMIT else Mt5OrderType.SELL_LIMIT
  | .stopMarket => if side = .buy then Mt5OrderType.BUY_STOP else Mt5OrderType.SELL_STOP
  | .stopLimit => if side = .buy then Mt5OrderType.BUY else Mt5OrderType.SELL
  | .other => if side = .buy then Mt5OrderType.BUY else Mt5OrderType.SELL

/-- The `result` object of an `order_send` response, with the fields that
`Mt5ExecutionClient._submit_order` reads (`retcode`, `comment`, `order`).
An absent field is `none`, mirroring `dict.get`. -/
structure OrderSendResult where
  retcode : Option ℤ
  comment : Option String
  order : Option ℤ
deriving DecidableEq, Repr

/-- Outcome of `Mt5ExecutionClient._submit_order`: either the accepted path
(`_generate_order_accepted`) or the rejected path (`_generate_order_rejected`
carrying the reason string). -/
inductive SubmitOutcome
  | accepted (result : OrderSendResult)
  | rejected (reason : String)
deriving DecidableEq, Repr

/-- The decision step of `Mt5ExecutionClient._submit_order` (execution.py
lines 186-195): `result` is the parsed `response["result"]`; a falsy/absent
result is `none`.  The code accepts exactly when
`result.get("retcode") == Mt5RetCode.DONE`; any other retcode takes the
rejected branch with `result.get("comment", "Unknown error")`, and an absent
result rejects with `"No response"`. -/
def submitOrderOutcome (result : Option OrderSendResult) : SubmitOutcome :=
  match result with
  | some r =>
      if r.retcode = some Mt5RetCode.DONE then
        .accepted r
      else
        .rejected (r.comment.getD "Unknown error")
  | none => .rejected "No response"

/-! ### Response parser (src/nautilus_mt5/client.py, `Mt5Client._parse_response`) -/

/-- Minimal JSON value model for middleware payloads. -/
inductive JVal
  | obj (fields : List (String × JVal))
  | arr (items : List JVal)
  | str (s : String)
  | num (q : ℚ)
  | boolean (b : Bool)
  | null

/-- The raw text handed to `Mt5Client._parse_response`, classified by what
`json.loads` does with it: falsy (empty/None) input, text that raises
`json.JSONDecodeError`, or text that decodes to a JSON envelope object
(the middleware envelope is `{"result": ...}` or `{"error": ...}`, an object). -/
inductive RawResponse
  | empty
  | malformed (s : String)
  | decoded (fields : List (String × JVal))

/-- Python-level error escaping `_parse_response`: the
`RuntimeError(f"MT5 API Error: {resp['error']}")` raise, carrying the value
under the `"error"` key. -/
inductive PyError
  | runtimeError (errVal : JVal)

/-- `Mt5Client._parse_response` (client.py lines 207-216).
Empty input returns `None`; decoded objects with an `"error"` key raise
`RuntimeError` (not caught by the `except json.JSONDecodeError` handler);
otherwise `resp.get("result")` is returned; a `json.JSONDecodeError` is
caught and `None` is returned. -/
def parseResponse (input : RawResponse) : Except PyError (Option JVal) :=
  match input with
  | .empty => .ok none
  | .malformed _ => .ok none
  | .decoded fields =>
      match fields.lookup "error" with
      | some v => .error (.runtimeError v)
      | none => .ok (fields.lookup "result")

/-! ### Timeframe resolution (src/nautilus_mt5/client.py, `Mt5Client`) -/

/-- `Mt5Client.TIMEFRAMES` (client.py lines 41-51). -/
def TIMEFRAMES : List (String × ℤ) :=
  [("M1", 1), ("M5", 5), ("M15", 15), ("M30", 30), ("H1", 16385),
   ("H4", 16388), ("D1", 16408), ("W1", 32769), ("MN1", 49153)]

/-- Python `str.upper()`, as a character-wise map. -/
def toUpperStr (s : String) : String :=
  String.mk (s.data.map Char.toUpper)

/-- `Mt5Client._resolve_timeframe` (client.py lines 202-205): an integer is
passed through unchanged; a string is uppercased and looked up in
`TIMEFRAMES` with default `1`. -/
def resolveTimeframe (timeframe : String ⊕ ℤ) : ℤ :=
  match timeframe with
  | .inr n => n
  | .inl s => (TIMEFRAMES.lookup (toUpperStr s)).getD 1

/-! ### Instrument normalization (src/nautilus_mt5/providers.py,
`Mt5InstrumentProvider._parse_instrument`)

Numeric broker fields (`point`, `volume_*`) are carried as their decimal
literals, matching how the Python code consumes them (`str(...)`,
`Quantity.from_str(str(...))`); `digits` is consumed as an integer. -/

/-- Python `s[:n]` (first `n` characters). -/
def strTake (s : String) (n : ℕ) : String :=
  String.mk (s.data.take n)

/-- Python `s[n:]` (drop the first `n` characters). -/
def strDrop (s : String) (n : ℕ) : String :=
  String.mk (s.data.drop n)

/-- Python `str.lower()`, as a character-wise map. -/
def toLowerStr (s : String) : String :=
  String.mk (s.data.map Char.toLower)

/-- Truthiness of an optional Python string: `None` and `""` are falsy. -/
def strTruthy : Option String → Bool
  | none => false
  | some s => !s.data.isEmpty

/-- Truthiness of an optional numeric field given by its decimal literal:
`None` and numerically-zero literals (`"0"`, `"0.0"`) are falsy. -/
def numTruthy : Option String → Bool
  | none => false
  | some s => s.any fun c => decide ('1' ≤ c) && decide (c ≤ '9')

/-- Python `a or b` for optional string fields. -/
def pyOrStr (a b : Option String) : Option String :=
  if strTruthy a then a else b

/-- Python `a or b` for optional numeric fields (decimal literals). -/
def pyOrNum (a b : Option String) : Option String :=
  if numTruthy a then a else b

/-- Raw symbol metadata as read by `_parse_instrument` via `dict.get`:
an absent key is `none`. -/
structure SymbolData where
  name : Option String := none
  symbol : Option String := none
  currency_base : Option String := none
  currency_profit : Option String := none
  digits : Option ℤ := none
  point : Option String := none
  volume_low : Option String := none
  volume_min : Option String := none
  volume_high : Option String := none
  volume_max : Option String := none
  volume_step : Option String := none
  path : Option String := none
  category : Option String := none
  margin_initial : Option String := none
  margin_maintenance : Option String := none
deriving DecidableEq, Repr

/-- Normalization failure: the `ValueError(f"... missing ... field")` raises of
`_parse_instrument`, keyed by the field named in the message. -/
inductive NormError
  | missingField (field : String)
deriving DecidableEq, Repr

/-- The normalized instrument record (fields of the `CurrencyPair`/`Cfd`
constructor calls that derive from the raw symbol data). -/
structure Instrument where
  symbol : String
  base_currency : String
  quote_currency : String
  price_precision : ℤ
  size_precision : ℕ
  price_increment : String
  size_increment : String
  lot_size : String
  min_quantity : String
  max_quantity : String
  margin_init : String
  margin_maint : String
  isForex : Bool
deriving DecidableEq, Repr

/-- `len(str(volume_step).split(".")[-1]) if "." in str(volume_step) else 0`
(providers.py lines 218-220): the length of the segment after the last dot. -/
def sizePrecisionOf (s : String) : ℕ :=
  if s.data.contains '.' then (s.data.reverse.takeWhile (fun c => !(c == '.'))).length
  else 0

/-- Python `sub in s` for strings (substring containment). -/
def containsSubstr (s sub : String) : Bool :=
  decide (sub.data <:+: s.data)

/-- `Mt5InstrumentProvider._parse_instrument` (providers.py lines 159-285),
restricted to the pure normalization logic: name resolution, currency
derivation with the precious-metal special case, required-field checks,
size-precision computation and forex classification. -/
def parseInstrument (d : SymbolData) : Except NormError Instrument :=
  let symName? := pyOrStr d.name d.symbol
  if strTruthy symName? then
    let symbol_name := symName?.getD ""
    let base0 := if strTruthy d.currency_base then d.currency_base.getD ""
                 else strTake symbol_name 3
    let quote0 := if strTruthy d.currency_profit then d.currency_profit.getD ""
                  else strTake (strDrop symbol_name 3) 3
    let quote1 :=
      if (base0 = "XAU" ∨ base0 = "XAG" ∨ base0 = "XPT" ∨ base0 = "XPD")
          ∧ (quote0.data.isEmpty = true ∨ quote0.data.length < 3) then "USD"
      else quote0
    match d.digits with
    | none => .error (.missingField "digits")
    | some digits =>
      match d.point with
      | none => .error (.missingField "point")
      | some point =>
        match pyOrNum d.volume_low d.volume_min with
        | none => .error (.missingField "volume_min")
        | some volume_min =>
          match pyOrNum d.volume_high d.volume_max with
          | none => .error (.missingField "volume_max")
          | some volume_max =>
            match d.volume_step with
            | none => .error (.missingField "volume_step")
            | some volume_step =>
              let size_precision := sizePrecisionOf volume_step
              let isForex :=
                containsSubstr (toLowerStr (d.path.getD "")) "forex"
                  || containsSubstr (toLowerStr (d.category.getD "")) "fx"
              .ok
                { symbol := symbol_name
                  base_currency := base0
                  quote_currency := quote1
                  price_precision := digits
                  size_precision := size_precision
                  price_increment := point
                  size_increment := volume_step
                  lot_size := volume_step
                  min_quantity := volume_min
                  max_quantity := volume_max
                  margin_init := d.margin_initial.getD "0"
                  margin_maint := d.margin_maintenance.getD "0"
                  isForex := isForex }
  else .error (.missingField "name")

/-- The spec's worked normalization example:
`{"name":"EURUSD","digits":5,"point":0.00001,"volume_min":0.01,
"volume_max":100,"volume_step":0.01}`. -/
def eurusdData : SymbolData :=
  { name := some "EURUSD", digits := some 5, point := some "0.00001",
    volume_min := some "0.01", volume_max := some "100", volume_step := some "0.01" }

/-! ### Quote polling with dedup (src/python/nautilus_mt5/data.py,
`Mt5DataClient._poll_quotes`, lines 818-886) -/

/-- The `result` of `symbol_info_tick`, with the fields `_poll_quotes` reads
via `tick.get(..., 0)`. -/
structure RawTick where
  bid : Option ℚ := none
  ask : Option ℚ := none
  time_msc : Option ℤ := none
deriving DecidableEq, Repr

/-- A `QuoteTick` handed to `self._handle_data`. -/
structure QuoteEmission where
  symbol : String
  bidPrice : ℚ
  askPrice : ℚ
  tsEventNs : ℤ
deriving DecidableEq, Repr

/-- `getattr(self, "_last_tick_times", {}).get(last_key, 0)`. -/
def lookupLast (m : List (String × ℤ)) (key : String) : ℤ :=
  (m.lookup key).getD 0

/-- One symbol's treatment inside a `_poll_quotes` cycle: fetch the latest
tick (`none` models a falsy response or a per-symbol request failure, both of
which `continue`), require the instrument in the cache, then dedup on
`time_msc` against `_last_tick_times` and emit. Returns the emissions and the
updated `_last_tick_times`. -/
def pollQuoteSymbol (instruments : List String) (tick : Option RawTick) (symbol : String)
    (lastTickTimes : List (String × ℤ)) : List QuoteEmission × List (String × ℤ) :=
  match tick with
  | none => ([], lastTickTimes)
  | some t =>
      if symbol ∈ instruments then
        let bid := t.bid.getD 0
        let ask := t.ask.getD 0
        let time_msc := t.time_msc.getD 0
        let key := symbol ++ "_quote"
        let last := lookupLast lastTickTimes key
        if time_msc ≤ last then ([], lastTickTimes)
        else ([⟨symbol, bid, ask, time_msc * 1000000⟩], (key, time_msc) :: lastTickTimes)
      else ([], lastTickTimes)

/-- A full `_poll_quotes` cycle over the snapshot
`list(self._subscribed_quote_ticks)`, with `tickOf` the per-symbol
`symbol_info_tick` response. -/
def pollQuotes (instruments : List String) (tickOf : String → Option RawTick) :
    List String → List (String × ℤ) → List QuoteEmission × List (String × ℤ)
  | [], st => ([], st)
  | s :: rest, st =>
      let r := pollQuoteSymbol instruments (tickOf s) s st
      let rr := pollQuotes instruments tickOf rest r.2
      (r.1 ++ rr.1, rr.2)

/-! ### Adaptive poll interval (src/python/nautilus_mt5/data.py,
`Mt5DataClient._poll_loop`, lines 767-816) -/

/-- `min_interval = 0.1` (seconds). -/
def minInterval : ℚ := 0.1

/-- `max_interval = 5.0` (seconds). -/
def maxInterval : ℚ := 5.0

/-- The per-cycle interval update of `_poll_loop`:
`max(min_interval, current_interval * 0.8)` when data was received this
cycle, `min(max_interval, current_interval * 1.2)` otherwise. -/
def updateInterval (dataReceived : Bool) (current : ℚ) : ℚ :=
  if dataReceived then max minInterval (current * 0.8)
  else min maxInterval (current * 1.2)

/-- The interval after a sequence of poll cycles (each cycle recorded by
whether any symbol produced new data), seeded at
`base_interval = poll_interval_ms / 1000`. -/
def intervalAfter (seed : ℚ) (cycles : List Bool) : ℚ :=
  cycles.foldl (fun c b => updateInterval b c) seed

/-! ### Subscription sets and the polling task
(src/python/nautilus_mt5/data.py) -/

/-- The task-related state of an `Mt5DataClient`: the three subscription sets,
the `_poll_task` handle (a task id, `none` when no handle is held), plus
bookkeeping of created task ids and of cancel requests issued, so that
"number of running task instances" is expressible. -/
structure ClientState where
  quotes : List String
  trades : List String
  bars : List String
  pollTask : Option ℕ
  nextTaskId : ℕ
  cancelled : List ℕ
deriving DecidableEq, Repr

/-- Client construction: the three sets empty, no polling task. -/
def initialState : ClientState :=
  { quotes := [], trades := [], bars := [], pollTask := none,
    nextTaskId := 0, cancelled := [] }

/-- Truthiness of `(self._subscribed_quote_ticks or self._subscribed_trade_ticks
or self._subscribed_bars)`. -/
def hasSubscriptions (s : ClientState) : Bool :=
  !s.quotes.isEmpty || !s.trades.isEmpty || !s.bars.isEmpty

/-- `Mt5DataClient._start_polling_if_needed` (data.py lines 744-753): create
the polling task only if some subscription set is non-empty and
`self._poll_task is None`. -/
def startPollingIfNeeded (s : ClientState) : ClientState :=
  if hasSubscriptions s && s.pollTask.isNone then
    { s with pollTask := some s.nextTaskId, nextTaskId := s.nextTaskId + 1 }
  else s

/-- `Mt5DataClient._stop_polling_if_idle` (data.py lines 755-765). This helper
exists in the source but is never invoked by any handler. -/
def stopPollingIfIdle (s : ClientState) : ClientState :=
  match s.pollTask with
  | some id =>
      if !hasSubscriptions s then
        { s with pollTask := none, cancelled := id :: s.cancelled }
      else s
  | none => s

/-- `Mt5DataClient._disconnect` (data.py lines 126-137): cancel the polling
task if present and clear the handle; the task's termination is not awaited. -/
def disconnectClient (s : ClientState) : ClientState :=
  match s.pollTask with
  | some id => { s with pollTask := none, cancelled := id :: s.cancelled }
  | none => s

/-- Which of the three subscription sets a subscribe/unsubscribe call targets. -/
inductive SubKind
  | quote
  | trade
  | bar
deriving DecidableEq, Repr

/-- The subscription-lifecycle entry points of `Mt5DataClient` relevant to the
polling task. -/
inductive ClientEvent
  | subscribe (kind : SubKind) (symbol : String)
  | unsubscribe (kind : SubKind) (symbol : String)
  | disconnect
deriving DecidableEq, Repr

/-- Dispatch of one entry point: `_subscribe_*` adds the key to its set and
calls `_start_polling_if_needed`; `_unsubscribe_*` only calls `set.discard`
(none of them invokes `_stop_polling_if_idle`); `_disconnect` cancels the
task handle. -/
def applyEvent (s : ClientState) (e : ClientEvent) : ClientState :=
  match e with
  | .subscribe .quote sym => startPollingIfNeeded { s with quotes := s.quotes.insert sym }
  | .subscribe .trade sym => startPollingIfNeeded { s with trades := s.trades.insert sym }
  | .subscribe .bar sym => startPollingIfNeeded { s with bars := s.bars.insert sym }
  | .unsubscribe .quote sym => { s with quotes := s.quotes.erase sym }
  | .unsubscribe .trade sym => { s with trades := s.trades.erase sym }
  | .unsubscribe .bar sym => { s with bars := s.bars.erase sym }
  | .disconnect => disconnectClient s

/-- A client run: a sequence of entry-point calls from construction. -/
def runEvents (events : List ClientEvent) : ClientState :=
  events.foldl applyEvent initialState

/-! ### Historical range fetches (src/python/nautilus_mt5/data.py and
src/nautilus_mt5/client.py)

Request timestamps are modelled as integer epoch seconds (the loops convert
cursors with `int(...timestamp())`). -/

/-- `ts_open = int(row[0])` for a positional bar/tick row (middleware
timestamps are non-negative integers, where `int` truncation equals floor). -/
def rowTime (row : List ℚ) : ℤ :=
  ⌊row.headD 0⌋

/-- A Nautilus `Bar` as built by `_process_bars`:
`ts_event = ts_init = (ts_open + tf_seconds) * 1_000_000_000`. -/
structure Bar where
  tsOpen : ℤ
  openPx : ℚ
  highPx : ℚ
  lowPx : ℚ
  closePx : ℚ
  volume : ℚ
  tsEventNs : ℤ
deriving DecidableEq, Repr

/-- The body of the `for row in rates` loop of `Mt5DataClient._process_bars`
(data.py lines 574-598): drop non-lists and rows with fewer than 6 fields;
skip bars with `ts_open` outside the requested `[start, end)` bound (when
given); build the bar from fields 1-5. -/
def processBarRow (tfSeconds : ℤ) (startT endT : Option ℤ) (row : List ℚ) : Option Bar :=
  if row.length < 6 then none
  else if (match startT with
      | some s => decide (rowTime row < s)
      | none => false)
    || (match endT with
      | some e => decide (e ≤ rowTime row)
      | none => false) then none
  else
    some { tsOpen := rowTime row
           openPx := row.getD 1 0
           highPx := row.getD 2 0
           lowPx := row.getD 3 0
           closePx := row.getD 4 0
           volume := row.getD 5 0
           tsEventNs := (rowTime row + tfSeconds) * 1000000000 }

/-- `Mt5DataClient._process_bars` (data.py lines 566-608). -/
def processBars (tfSeconds : ℤ) (startT endT : Option ℤ) (rates : List (List ℚ)) : List Bar :=
  rates.filterMap (processBarRow tfSeconds startT endT)

/-- `int(row[5]) * 1_000_000 if len(row) > 5 else int(row[0]) * 1_000_000_000`
(`_process_quote_ticks` / `_process_trade_ticks`). -/
def tickTsNs (row : List ℚ) : ℤ :=
  if 5 < row.length then ⌊row.getD 5 0⌋ * 1000000 else ⌊row.getD 0 0⌋ * 1000000000

/-- `Mt5DataClient._process_quote_ticks` (data.py lines 657-692): drop rows
with fewer than 3 fields; emit `(bid, ask, ts_ns)`. -/
def processQuoteTicks (rows : List (List ℚ)) : List (ℚ × ℚ × ℤ) :=
  rows.filterMap fun row =>
    if row.length < 3 then none
    else some (row.getD 1 0, row.getD 2 0, tickTsNs row)

/-- The shared chunked-range loop skeleton of `_request_bars` (range mode),
`_fetch_and_publish_ticks_range` and `Mt5Client.fetch_bars` (range mode):
`while start_cursor < end_limit: chunk_end = min(start_cursor + chunk_size,
end_limit); <one request>; start_cursor = chunk_end`. `fetch` is the remote
call (`none` models a failed chunk request, caught and skipped, or a
non-list response); `handle` is the per-chunk row processing. Returns the
issued `(req_start_ts, req_end_ts)` pairs in order, and the accumulated
processed output. -/
def runChunks {α : Type} (size : ℤ) (hsize : 0 < size)
    (fetch : ℤ → ℤ → Option (List (List ℚ))) (handle : List (List ℚ) → List α)
    (cursor endLimit : ℤ) : List (ℤ × ℤ) × List α :=
  if h : cursor < endLimit then
    let chunkEnd := min (cursor + size) endLimit
    let chunkOut : List α :=
      match fetch cursor chunkEnd with
      | some rows => handle rows
      | none => []
    let rest := runChunks size hsize fetch handle chunkEnd endLimit
    ((cursor, chunkEnd) :: rest.1, chunkOut ++ rest.2)
  else ([], [])
termination_by (endLimit - cursor).toNat
decreasing_by
  have h1 : cursor < min (cursor + size) endLimit := lt_min (by omega) h
  have h2 : endLimit - min (cursor + size) endLimit < endLimit - cursor := by omega
  exact (Int.toNat_lt_toNat (by omega)).mpr h2

/-- The chunk schedule alone: the `(chunk_start, chunk_end)` pairs the cursor
walks through, which by construction of the loop do not depend on responses. -/
def chunkSpans (size : ℤ) (hsize : 0 < size) (cursor endLimit : ℤ) : List (ℤ × ℤ) :=
  if h : cursor < endLimit then
    let chunkEnd := min (cursor + size) endLimit
    (cursor, chunkEnd) :: chunkSpans size hsize chunkEnd endLimit
  else []
termination_by (endLimit - cursor).toNat
decreasing_by
  have h1 : cursor < min (cursor + size) endLimit := lt_min (by omega) h
  have h2 : endLimit - min (cursor + size) endLimit < endLimit - cursor := by omega
  exact (Int.toNat_lt_toNat (by omega)).mpr h2

/-- `chunk_size = timedelta(days=30)` in seconds (bar range requests). -/
def barChunkSeconds : ℤ := 2592000

/-- `chunk_size = timedelta(hours=6)` in seconds (tick range requests). -/
def tickChunkSeconds : ℤ := 21600

/-- `Mt5DataClient._request_bars`, range mode (data.py lines 471-534):
30-day chunks; each chunk's rows go through `_process_bars` with the overall
`request.start`/`request.end` bounds. -/
def requestBarsRange (tfSeconds : ℤ) (fetch : ℤ → ℤ → Option (List (List ℚ)))
    (startT endT : ℤ) : List (ℤ × ℤ) × List Bar :=
  runChunks barChunkSeconds (by decide) fetch
    (processBars tfSeconds (some startT) (some endT)) startT endT

/-- `Mt5DataClient._fetch_and_publish_ticks_range` for quote ticks
(data.py lines 610-655): 6-hour chunks, rows through `_process_quote_ticks`. -/
def fetchTicksRange (fetch : ℤ → ℤ → Option (List (List ℚ)))
    (startT endT : ℤ) : List (ℤ × ℤ) × List (ℚ × ℚ × ℤ) :=
  runChunks tickChunkSeconds (by decide) fetch processQuoteTicks startT endT

/-- A bar dict as returned by `Mt5Client._format_bar` (client.py lines
150-161): `spread`/`real_volume` default to 0 for short rows. -/
structure BarDict where
  time : ℚ
  openV : ℚ
  highV : ℚ
  lowV : ℚ
  closeV : ℚ
  tick_volume : ℚ
  spread : ℚ
  real_volume : ℚ
deriving DecidableEq, Repr

/-- `Mt5Client._format_bar`. -/
def formatBar (row : List ℚ) : BarDict :=
  { time := row.getD 0 0, openV := row.getD 1 0, highV := row.getD 2 0,
    lowV := row.getD 3 0, closeV := row.getD 4 0, tick_volume := row.getD 5 0,
    spread := row.getD 6 0, real_volume := row.getD 7 0 }

/-- The per-chunk row handling of `Mt5Client.fetch_bars` (client.py lines
128-131): keep list rows with at least 6 fields, format them; no range
post-filtering is applied. -/
def fetchBarsHandle (rows : List (List ℚ)) : List BarDict :=
  rows.filterMap fun row => if 6 ≤ row.length then some (formatBar row) else none

/-- `Mt5Client.fetch_bars`, range mode (client.py lines 110-134): 30-day
chunks over `[start_ts, end_ts)`; `fetch = none` models a `_parse_response`
result that is not a list. -/
def fetchBarsRange (fetch : ℤ → ℤ → Option (List (List ℚ)))
    (startT endT : ℤ) : List (ℤ × ℤ) × List BarDict :=
  runChunks barChunkSeconds (by decide) fetch fetchBarsHandle startT endT

/-- A small concrete two-bar series (times 10 and 20) used to instantiate the
pagination theorems. -/
def barSeriesExample : List (List ℚ) :=
  [[10, 1, 2, 3, 4, 5], [20, 2, 3, 4, 5, 6]]

/-- A one-bar series whose bar opens at time 15 — an interior chunk boundary
for chunk size 15 over the window `[0, 30)`. -/
def barSeriesEdgeExample : List (List ℚ) :=
  [[15, 1, 2, 3, 4, 5]]

/-- A remote with MT5's actual `copy_rates_range` semantics: each chunk query
`[a, b]` is served END-INCLUSIVE (the terminal returns bars with open time in
the closed interval), so a bar opening exactly at a chunk edge is returned by
both adjacent chunk queries. This is the over-return the spec warns about
("the remote side may over-return at chunk edges") and the code comments on
("MT5 might return slightly outside"). -/
def inclusiveEdgeFetch : ℤ → ℤ → Option (List (List ℚ)) :=
  fun a b => some (barSeriesEdgeExample.filter
    (fun r => decide (a ≤ rowTime r) && decide (rowTime r ≤ b)))

/-! ## Theorems -/

/-- C1: the spec names two success return codes (DONE=10009, PLACED=10008),
matching the repository's own test helper (tests/test_live_orders.py accepts
either code), but `_submit_order` accepts only DONE: a response with
retcode PLACED takes the rejected branch (carrying the comment text), while
DONE is accepted and `(side=BUY, kind=MARKET)` maps to broker type BUY=0.
This evaluates the embedded decision at the failing input retcode=10008. -/
theorem submitOrder_rejects_placed_retcode :
    submitOrderOutcome
        (some { retcode := some Mt5RetCode.PLACED, comment := some "order placed", order := some 42 })
      = SubmitOutcome.rejected "order placed"
    ∧ submitOrderOutcome
        (some { retcode := some Mt5RetCode.DONE, comment := none, order := some 42 })
      = SubmitOutcome.accepted { retcode := some Mt5RetCode.DONE, comment := none, order := some 42 }
    ∧ submitOrderOutcome none = SubmitOutcome.rejected "No response"
    ∧ convertOrderType .buy .market = Mt5OrderType.BUY := by
  refine ⟨?_, rfl, rfl, rfl⟩
  simp [submitOrderOutcome, Mt5RetCode.PLACED, Mt5RetCode.DONE]

/-- C8 counterexample: the claim says malformed JSON yields a parse error, but
`_parse_response` catches `json.JSONDecodeError` and returns `None` — a
silent absence, not an error — as evaluated at the concrete malformed input
`"not json"`. -/
theorem parseResponse_malformed_silent_cex :
    parseResponse (.malformed "not json") = .ok none
    ∧ ∀ e, parseResponse (.malformed "not json") ≠ .error e := by
  exact ⟨rfl, fun e h => by simp [parseResponse] at h⟩

/-- C8 (amended): empty or null input yields absence rather than an error; a
decoded envelope containing an `"error"` key raises a `RuntimeError` carrying
the error value; otherwise the `"result"` field is returned; malformed JSON
is silently mapped to `None` (absence), indistinguishable from an empty
response, rather than yielding a parse error. -/
theorem parseResponse_spec :
    parseResponse .empty = .ok none
    ∧ (∀ s, parseResponse (.malformed s) = .ok none)
    ∧ (∀ fields v, fields.lookup "error" = some v →
        parseResponse (.decoded fields) = .error (.runtimeError v))
    ∧ (∀ fields, fields.lookup "error" = none →
        parseResponse (.decoded fields) = .ok (fields.lookup "result")) := by
  refine ⟨rfl, fun s => rfl, fun fields v h => ?_, fun fields h => ?_⟩
  · simp [parseResponse, h]
  · simp [parseResponse, h]

/-- C8 witness: the amended parser behaviour at concrete envelopes. -/
theorem parseResponse_spec_witness :
    parseResponse (.decoded [("error", JVal.str "boom")])
      = .error (.runtimeError (JVal.str "boom"))
    ∧ parseResponse (.decoded [("result", JVal.num 7)]) = .ok (some (JVal.num 7)) :=
  ⟨parseResponse_spec.2.2.1 _ _ rfl, parseResponse_spec.2.2.2 _ rfl⟩

/-- C10: `_resolve_timeframe` maps any string alien to `TIMEFRAMES` (after
uppercasing) to `1` (the M1 code) with no error, and passes any integer
through unvalidated; known strings resolve case-insensitively. -/
theorem resolveTimeframe_spec :
    (∀ s : String, TIMEFRAMES.lookup (toUpperStr s) = none → resolveTimeframe (.inl s) = 1)
    ∧ (∀ n : ℤ, resolveTimeframe (.inr n) = n)
    ∧ resolveTimeframe (.inl "m1") = 1
    ∧ resolveTimeframe (.inl "h4") = 16388 := by
  refine ⟨fun s h => ?_, fun n => rfl, by decide, by decide⟩
  simp [resolveTimeframe, h]

/-- C10 witness: the misspelled timeframe string `"M2"` silently resolves to
the M1 code, and the integer `999` passes through. -/
theorem resolveTimeframe_spec_witness :
    resolveTimeframe (.inl "M2") = 1 ∧ resolveTimeframe (.inr 999) = 999 :=
  ⟨resolveTimeframe_spec.1 "M2" (by decide), resolveTimeframe_spec.2.1 999⟩

/-- C2: within a `_poll_quotes` cycle, a subscribed symbol (with a cached
instrument and a tick response) emits exactly when the tick's `time_msc` is
strictly greater than the per-symbol `last_seen_time` (default 0), and the
emission updates `last_seen_time` to `time_msc`; presenting the very same
raw tick again in the next cycle emits nothing, so two consecutive
presentations yield exactly one emission when the tick is fresh and zero
otherwise — a delivered tick is never re-emitted. -/
theorem pollQuotes_tick_dedup (instruments : List String) (t : RawTick) (sym : String)
    (st : List (String × ℤ)) (hsym : sym ∈ instruments) :
    ((pollQuoteSymbol instruments (some t) sym st).1 ≠ [] →
      lookupLast st (sym ++ "_quote") < t.time_msc.getD 0)
    ∧ (lookupLast st (sym ++ "_quote") < t.time_msc.getD 0 →
        (pollQuoteSymbol instruments (some t) sym st).1
          = [⟨sym, t.bid.getD 0, t.ask.getD 0, t.time_msc.getD 0 * 1000000⟩]
        ∧ lookupLast (pollQuoteSymbol instruments (some t) sym st).2 (sym ++ "_quote")
            = t.time_msc.getD 0)
    ∧ (pollQuoteSymbol instruments (some t) sym
        (pollQuoteSymbol instruments (some t) sym st).2).1 = []
    ∧ (pollQuoteSymbol instruments (some t) sym st).1.length
        + (pollQuoteSymbol instruments (some t) sym
            (pollQuoteSymbol instruments (some t) sym st).2).1.length
      = if lookupLast st (sym ++ "_quote") < t.time_msc.getD 0 then 1 else 0 := by
  by_cases h : t.time_msc.getD 0 ≤ lookupLast st (sym ++ "_quote")
  · have e1 : pollQuoteSymbol instruments (some t) sym st = ([], st) := by
      simp [pollQuoteSymbol, hsym, h]
    rw [e1]
    refine ⟨fun hne => absurd rfl hne, fun hlt => absurd hlt (by omega), ?_, ?_⟩
    · rw [e1]
    · rw [e1, if_neg (by omega)]
      rfl
  · have hlt : lookupLast st (sym ++ "_quote") < t.time_msc.getD 0 := by omega
    have e1 : pollQuoteSymbol instruments (some t) sym st
        = ([⟨sym, t.bid.getD 0, t.ask.getD 0, t.time_msc.getD 0 * 1000000⟩],
           (sym ++ "_quote", t.time_msc.getD 0) :: st) := by
      simp [pollQuoteSymbol, hsym, h]
    have hk : lookupLast ((sym ++ "_quote", t.time_msc.getD 0) :: st) (sym ++ "_quote")
        = t.time_msc.getD 0 := by
      simp [lookupLast, List.lookup]
    have e2 : pollQuoteSymbol instruments (some t) sym
        ((sym ++ "_quote", t.time_msc.getD 0) :: st)
        = ([], (sym ++ "_quote", t.time_msc.getD 0) :: st) := by
      simp [pollQuoteSymbol, hsym, hk]
    rw [e1]
    refine ⟨fun _ => hlt, fun _ => ⟨rfl, hk⟩, ?_, ?_⟩
    · rw [e2]
    · rw [e2, if_pos hlt]
      rfl

/-- C2 witness: a concrete fresh tick (`time_msc = 1000`) for a cached,
subscribed symbol is emitted exactly once across two consecutive
presentations. -/
theorem pollQuotes_tick_dedup_witness :
    (pollQuoteSymbol ["EURUSD"]
        (some { bid := some 1.1, ask := some 1.2, time_msc := some 1000 }) "EURUSD" []).1.length
      + (pollQuoteSymbol ["EURUSD"]
          (some { bid := some 1.1, ask := some 1.2, time_msc := some 1000 }) "EURUSD"
          (pollQuoteSymbol ["EURUSD"]
            (some { bid := some 1.1, ask := some 1.2, time_msc := some 1000 })
            "EURUSD" []).2).1.length
      = 1 := by
  have h := (pollQuotes_tick_dedup ["EURUSD"]
    { bid := some 1.1, ask := some 1.2, time_msc := some 1000 } "EURUSD" []
    (by decide)).2.2.2
  rw [h, if_pos (by decide)]

/-- C3: from a seed inside `[min_interval, max_interval]` (the default
`poll_interval_ms = 1000` seeds at 1.0s), the adaptive interval stays inside
the bounds after every sequence of cycles; a cycle with new data strictly
decreases it unless already at the floor (and respects the floor), and a
cycle with no data strictly increases it unless already at the cap (and
respects the cap). -/
theorem pollInterval_adaptive (seed : ℚ) (cycles : List Bool)
    (hlo : minInterval ≤ seed) (hhi : seed ≤ maxInterval) :
    (minInterval ≤ intervalAfter seed cycles ∧ intervalAfter seed cycles ≤ maxInterval)
    ∧ (∀ c : ℚ, minInterval ≤ c → c ≤ maxInterval →
        (minInterval < c → updateInterval true c < c)
        ∧ minInterval ≤ updateInterval true c
        ∧ (c < maxInterval → c < updateInterval false c)
        ∧ updateInterval false c ≤ maxInterval) := by
  have hstep : ∀ (b : Bool) (c : ℚ), minInterval ≤ c → c ≤ maxInterval →
      minInterval ≤ updateInterval b c ∧ updateInterval b c ≤ maxInterval := by
    intro b c h1 h2
    have hm : (minInterval : ℚ) = 0.1 := rfl
    have hM : (maxInterval : ℚ) = 5.0 := rfl
    cases b with
    | true =>
        simp only [updateInterval, if_pos]
        constructor
        · exact le_max_left _ _
        · apply max_le
          · rw [hm, hM]; norm_num
          · nlinarith [h1, h2]
    | false =>
        simp only [updateInterval, if_neg Bool.false_ne_true]
        constructor
        · apply le_min
          · rw [hm, hM]; norm_num
          · nlinarith [h1]
        · exact min_le_left _ _
  constructor
  · induction cycles generalizing seed with
    | nil => exact ⟨hlo, hhi⟩
    | cons b rest ih =>
        have h := hstep b seed hlo hhi
        simpa [intervalAfter] using ih (updateInterval b seed) h.1 h.2
  · intro c h1 h2
    have h01 : (0 : ℚ) < c := lt_of_lt_of_le (by norm_num [minInterval]) h1
    refine ⟨fun hgt => ?_, (hstep true c h1 h2).1, fun hlt => ?_, (hstep false c h1 h2).2⟩
    · simp only [updateInterval, if_pos]
      apply max_lt hgt
      nlinarith
    · simp only [updateInterval, if_neg Bool.false_ne_true]
      apply lt_min hlt
      nlinarith

/-- C3 witness: the default seed 1.0 with a concrete cycle history. -/
theorem pollInterval_adaptive_witness :
    minInterval ≤ intervalAfter 1 [true, false, false]
    ∧ intervalAfter 1 [true, false, false] ≤ maxInterval :=
  (pollInterval_adaptive 1 [true, false, false]
    (by norm_num [minInterval]) (by norm_num [maxInterval])).1

/-- C9: the claim (and `_stop_polling_if_idle`'s own docstring) says the
polling task is cancelled when the last subscription is removed, but no
unsubscribe handler ever invokes that helper: after subscribing to quotes
for EURUSD and then unsubscribing it, all three subscription sets are empty
yet the task handle is still set and no cancel request was ever issued. -/
theorem pollTask_survives_last_unsubscribe :
    (runEvents [.subscribe .quote "EURUSD", .unsubscribe .quote "EURUSD"]).quotes = []
    ∧ (runEvents [.subscribe .quote "EURUSD", .unsubscribe .quote "EURUSD"]).trades = []
    ∧ (runEvents [.subscribe .quote "EURUSD", .unsubscribe .quote "EURUSD"]).bars = []
    ∧ (runEvents [.subscribe .quote "EURUSD", .unsubscribe .quote "EURUSD"]).pollTask = some 0
    ∧ (runEvents [.subscribe .quote "EURUSD", .unsubscribe .quote "EURUSD"]).cancelled = [] := by
  decide

/-- C7: normalization is a pure function; the spec's EURUSD example succeeds
with base EUR, quote USD, price precision 5, size precision 2; dropping
`digits` fails with the named missing-field error; and each of `digits`,
`point`, `volume_min` (with its `volume_low` alias), `volume_max` (with
`volume_high`) and `volume_step` is required — absence yields a named
missing-field error, never a silently defaulted instrument. -/
theorem parseInstrument_spec :
    parseInstrument eurusdData
      = .ok { symbol := "EURUSD", base_currency := "EUR", quote_currency := "USD",
              price_precision := 5, size_precision := 2, price_increment := "0.00001",
              size_increment := "0.01", lot_size := "0.01", min_quantity := "0.01",
              max_quantity := "100", margin_init := "0", margin_maint := "0",
              isForex := false }
    ∧ parseInstrument { eurusdData with digits := none } = .error (.missingField "digits")
    ∧ parseInstrument { eurusdData with point := none } = .error (.missingField "point")
    ∧ parseInstrument { eurusdData with volume_min := none }
        = .error (.missingField "volume_min")
    ∧ parseInstrument { eurusdData with volume_max := none }
        = .error (.missingField "volume_max")
    ∧ parseInstrument { eurusdData with volume_step := none }
        = .error (.missingField "volume_step")
    ∧ (∀ d : SymbolData, d.digits = none → ∀ i, parseInstrument d ≠ .ok i)
    ∧ (∀ d : SymbolData, d.point = none → ∀ i, parseInstrument d ≠ .ok i)
    ∧ (∀ d : SymbolData, d.volume_low = none → d.volume_min = none →
        ∀ i, parseInstrument d ≠ .ok i)
    ∧ (∀ d : SymbolData, d.volume_high = none → d.volume_max = none →
        ∀ i, parseInstrument d ≠ .ok i)
    ∧ (∀ d : SymbolData, d.volume_step = none → ∀ i, parseInstrument d ≠ .ok i) := by
  refine ⟨rfl, rfl, rfl, rfl, rfl, rfl, ?_, ?_, ?_, ?_, ?_⟩
  · intro d hd i h
    simp only [parseInstrument, hd] at h
    repeat' split at h
    all_goals first
      | exact Except.noConfusion h
      | simp_all
  · intro d hp i h
    simp only [parseInstrument, hp] at h
    repeat' split at h
    all_goals first
      | exact Except.noConfusion h
      | simp_all
  · intro d h1 h2 i h
    simp only [parseInstrument, h1, h2, pyOrNum, numTruthy] at h
    repeat' split at h
    all_goals first
      | exact Except.noConfusion h
      | simp_all
  · intro d h1 h2 i h
    simp only [parseInstrument, h1, h2, pyOrNum, numTruthy] at h
    repeat' split at h
    all_goals first
      | exact Except.noConfusion h
      | simp_all
  · intro d hs i h
    simp only [parseInstrument, hs] at h
    repeat' split at h
    all_goals first
      | exact Except.noConfusion h
      | simp_all

/-- C7 witness: the general missing-field components applied at a concrete
record that has a name but no `digits`. -/
theorem parseInstrument_spec_witness :
    parseInstrument { name := some "EURUSD" }
      ≠ .ok { symbol := "EURUSD", base_currency := "EUR", quote_currency := "USD",
              price_precision := 5, size_precision := 2, price_increment := "0.00001",
              size_increment := "0.01", lot_size := "0.01", min_quantity := "0.01",
              max_quantity := "100", margin_init := "0", margin_maint := "0",
              isForex := false } :=
  parseInstrument_spec.2.2.2.2.2.2.1 { name := some "EURUSD" } rfl _

/-! ### Helper lemmas for the chunked range loops -/

theorem chunkSpans_nil (size : ℤ) (hsize : 0 < size) (c e : ℤ) (h : ¬c < e) :
    chunkSpans size hsize c e = [] := by
  rw [chunkSpans]
  simp [h]

theorem chunkSpans_cons (size : ℤ) (hsize : 0 < size) (c e : ℤ) (h : c < e) :
    chunkSpans size hsize c e
      = (c, min (c + size) e) :: chunkSpans size hsize (min (c + size) e) e := by
  rw [chunkSpans]
  simp [h]

theorem runChunks_fst {α : Type} (size : ℤ) (hsize : 0 < size)
    (fetch : ℤ → ℤ → Option (List (List ℚ))) (handle : List (List ℚ) → List α)
    (c e : ℤ) :
    (runChunks size hsize fetch handle c e).1 = chunkSpans size hsize c e := by
  generalize hn : (e - c).toNat = n
  induction n using Nat.strong_induction_on generalizing c with
  | _ n ih =>
    rw [runChunks, chunkSpans]
    by_cases h : c < e
    · simp only [dif_pos h]
      have hlt : (e - min (c + size) e).toNat < n := by
        subst hn
        have h1 : c < min (c + size) e := lt_min (by omega) h
        exact (Int.toNat_lt_toNat (by omega)).mpr (by omega)
      simpa using ih _ hlt (min (c + size) e) rfl
    · simp [dif_neg h]

theorem runChunks_snd {α : Type} (size : ℤ) (hsize : 0 < size)
    (fetch : ℤ → ℤ → Option (List (List ℚ))) (handle : List (List ℚ) → List α)
    (c e : ℤ) :
    (runChunks size hsize fetch handle c e).2
      = ((chunkSpans size hsize c e).map
          (fun p => match fetch p.1 p.2 with
            | some rows => handle rows
            | none => [])).flatten := by
  generalize hn : (e - c).toNat = n
  induction n using Nat.strong_induction_on generalizing c with
  | _ n ih =>
    rw [runChunks, chunkSpans]
    by_cases h : c < e
    · simp only [dif_pos h]
      have hlt : (e - min (c + size) e).toNat < n := by
        subst hn
        have h1 : c < min (c + size) e := lt_min (by omega) h
        exact (Int.toNat_lt_toNat (by omega)).mpr (by omega)
      rw [ih _ hlt (min (c + size) e) rfl]
      simp [List.flatten]
    · simp [dif_neg h]

theorem chunkSpans_length (size : ℤ) (hsize : 0 < size) (c e : ℤ) :
    (chunkSpans size hsize c e).length = (⌈((e : ℚ) - (c : ℚ)) / (size : ℚ)⌉).toNat := by
  have hs0 : (0 : ℚ) < (size : ℚ) := by exact_mod_cast hsize
  generalize hn : (e - c).toNat = n
  induction n using Nat.strong_induction_on generalizing c with
  | _ n ih =>
    by_cases h : c < e
    · rw [chunkSpans_cons size hsize c e h]
      by_cases h2 : c + size ≤ e
      · have hmin : min (c + size) e = c + size := min_eq_left h2
        have hlt : (e - (c + size)).toNat < n := by omega
        rw [hmin, List.length_cons, ih _ hlt (c + size) rfl]
        have hq : ((e : ℚ) - (((c + size) : ℤ) : ℚ)) / (size : ℚ)
            = ((e : ℚ) - (c : ℚ)) / (size : ℚ) - 1 := by
          push_cast
          field_simp
          ring
        have key : ⌈((e : ℚ) - (((c + size) : ℤ) : ℚ)) / (size : ℚ)⌉
            = ⌈((e : ℚ) - (c : ℚ)) / (size : ℚ)⌉ - 1 := by
          rw [hq]
          exact_mod_cast Int.ceil_sub_int (((e : ℚ) - (c : ℚ)) / (size : ℚ)) 1
        have hnn : 0 ≤ ⌈((e : ℚ) - (((c + size) : ℤ) : ℚ)) / (size : ℚ)⌉ := by
          apply Int.ceil_nonneg
          apply div_nonneg _ (le_of_lt hs0)
          have : ((c + size : ℤ) : ℚ) ≤ (e : ℚ) := by exact_mod_cast h2
          linarith
        omega
      · have hmin : min (c + size) e = e := min_eq_right (by omega)
        rw [hmin, chunkSpans_nil size hsize e e (lt_irrefl e),
          List.length_cons, List.length_nil]
        have h1 : ⌈((e : ℚ) - (c : ℚ)) / (size : ℚ)⌉ = 1 := by
          rw [Int.ceil_eq_iff]
          constructor
          · push_cast
            simp only [sub_self]
            apply div_pos _ hs0
            have : (c : ℚ) < (e : ℚ) := by exact_mod_cast h
            linarith
          · push_cast
            rw [div_le_one hs0]
            have : (e : ℚ) ≤ (c : ℚ) + (size : ℚ) := by
              have he : e ≤ c + size := by omega
              exact_mod_cast he
            linarith
        omega
    · rw [chunkSpans_nil size hsize c e h, List.length_nil]
      have hle : ⌈((e : ℚ) - (c : ℚ)) / (size : ℚ)⌉ ≤ 0 := by
        rw [show (0 : ℤ) = ((0 : ℤ)) from rfl, Int.ceil_le]
        push_cast
        apply div_nonpos_of_nonpos_of_nonneg _ (le_of_lt hs0)
        have : (e : ℚ) ≤ (c : ℚ) := by exact_mod_cast (by omega : e ≤ c)
        linarith
      omega

theorem chunkSpans_mem (size : ℤ) (hsize : 0 < size) (c e : ℤ) :
    ∀ p ∈ chunkSpans size hsize c e, c ≤ p.1 ∧ p.1 < p.2 ∧ p.2 = min (p.1 + size) e := by
  generalize hn : (e - c).toNat = n
  induction n using Nat.strong_induction_on generalizing c with
  | _ n ih =>
    by_cases h : c < e
    · rw [chunkSpans_cons size hsize c e h]
      intro p hp
      have hcm : c < min (c + size) e := lt_min (by omega) h
      rcases List.mem_cons.mp hp with hhd | htl
      · subst hhd
        exact ⟨le_refl c, hcm, rfl⟩
      · have hlt : (e - min (c + size) e).toNat < n := by
          rcases min_cases (c + size) e with ⟨hmeq, _⟩ | ⟨hmeq, _⟩ <;> omega
        have hres := ih _ hlt (min (c + size) e) rfl p htl
        exact ⟨le_trans (le_of_lt hcm) hres.1, hres.2.1, hres.2.2⟩
    · rw [chunkSpans_nil size hsize c e h]
      intro p hp
      exact absurd hp (List.not_mem_nil p)

theorem chunkSpans_chain (size : ℤ) (hsize : 0 < size) (c e : ℤ) :
    List.Chain' (fun p q : ℤ × ℤ => p.2 = q.1) (chunkSpans size hsize c e) := by
  generalize hn : (e - c).toNat = n
  induction n using Nat.strong_induction_on generalizing c with
  | _ n ih =>
    by_cases h : c < e
    · rw [chunkSpans_cons size hsize c e h]
      have hcm : c < min (c + size) e := lt_min (by omega) h
      have hlt : (e - min (c + size) e).toNat < n := by
        rcases min_cases (c + size) e with ⟨hmeq, _⟩ | ⟨hmeq, _⟩ <;> omega
      rw [List.chain'_cons']
      refine ⟨?_, ih _ hlt (min (c + size) e) rfl⟩
      intro q hq
      by_cases h2 : min (c + size) e < e
      · rw [chunkSpans_cons size hsize _ e h2] at hq
        simp only [List.head?_cons, Option.mem_def, Option.some.injEq] at hq
        rw [← hq]
      · rw [chunkSpans_nil size hsize _ e h2] at hq
        simp at hq
    · rw [chunkSpans_nil size hsize c e h]
      exact List.chain'_nil

theorem chunkSpans_pairwise (size : ℤ) (hsize : 0 < size) (c e : ℤ) :
    (chunkSpans size hsize c e).Pairwise (fun p q : ℤ × ℤ => p.1 < q.1) := by
  generalize hn : (e - c).toNat = n
  induction n using Nat.strong_induction_on generalizing c with
  | _ n ih =>
    by_cases h : c < e
    · rw [chunkSpans_cons size hsize c e h]
      have hcm : c < min (c + size) e := lt_min (by omega) h
      have hlt : (e - min (c + size) e).toNat < n := by
        rcases min_cases (c + size) e with ⟨hmeq, _⟩ | ⟨hmeq, _⟩ <;> omega
      refine List.Pairwise.cons ?_ (ih _ hlt (min (c + size) e) rfl)
      intro q hq
      have hmem := chunkSpans_mem size hsize (min (c + size) e) e q hq
      exact lt_of_lt_of_le hcm hmem.1
    · rw [chunkSpans_nil size hsize c e h]
      exact List.Pairwise.nil

/-- C4: for every range-mode historical fetch (30-day chunks for bars, 6-hour
chunks for ticks), the issued chunk requests are exactly the
`ceil((end-start)/chunk_size)` spans, in strictly increasing time order, each
span reaching `min(start + chunk_size, end)`; the request schedule is
independent of the responses — an empty chunk is tolerated and a failed
chunk (`fetch = none`) is skipped without aborting the remaining chunks. -/
theorem rangeFetch_pagination (tfSeconds : ℤ)
    (fetch : ℤ → ℤ → Option (List (List ℚ))) (s e : ℤ) :
    (requestBarsRange tfSeconds fetch s e).1.length
      = (⌈((e : ℚ) - (s : ℚ)) / (barChunkSeconds : ℚ)⌉).toNat
    ∧ (fetchTicksRange fetch s e).1.length
      = (⌈((e : ℚ) - (s : ℚ)) / (tickChunkSeconds : ℚ)⌉).toNat
    ∧ (requestBarsRange tfSeconds fetch s e).1.Pairwise (fun p q => p.1 < q.1)
    ∧ List.Chain' (fun p q => p.2 = q.1) (requestBarsRange tfSeconds fetch s e).1
    ∧ (requestBarsRange tfSeconds fetch s e).1.Forall
        (fun p => p.1 < p.2 ∧ p.2 = min (p.1 + barChunkSeconds) e)
    ∧ (fetchTicksRange fetch s e).1.Pairwise (fun p q => p.1 < q.1)
    ∧ List.Chain' (fun p q => p.2 = q.1) (fetchTicksRange fetch s e).1
    ∧ (fetchTicksRange fetch s e).1.Forall
        (fun p => p.1 < p.2 ∧ p.2 = min (p.1 + tickChunkSeconds) e)
    ∧ (∀ fetch2 : ℤ → ℤ → Option (List (List ℚ)),
        (requestBarsRange tfSeconds fetch2 s e).1 = (requestBarsRange tfSeconds fetch s e).1)
    ∧ (∀ fetch2 : ℤ → ℤ → Option (List (List ℚ)),
        (fetchTicksRange fetch2 s e).1 = (fetchTicksRange fetch s e).1) := by
  have hb : ∀ f : ℤ → ℤ → Option (List (List ℚ)),
      (requestBarsRange tfSeconds f s e).1 = chunkSpans barChunkSeconds (by decide) s e :=
    fun f => runChunks_fst _ _ f _ s e
  have ht : ∀ f : ℤ → ℤ → Option (List (List ℚ)),
      (fetchTicksRange f s e).1 = chunkSpans tickChunkSeconds (by decide) s e :=
    fun f => runChunks_fst _ _ f _ s e
  refine ⟨?_, ?_, ?_, ?_, ?_, ?_, ?_, ?_, fun f2 => by rw [hb f2, hb fetch],
    fun f2 => by rw [ht f2, ht fetch]⟩
  · rw [hb fetch, chunkSpans_length]
  · rw [ht fetch, chunkSpans_length]
  · rw [hb fetch]
    exact chunkSpans_pairwise _ _ _ _
  · rw [hb fetch]
    exact chunkSpans_chain _ _ _ _
  · rw [hb fetch]
    rw [List.forall_iff_forall_mem]
    intro p hp
    exact (chunkSpans_mem _ _ _ _ p hp).2
  · rw [ht fetch]
    exact chunkSpans_pairwise _ _ _ _
  · rw [ht fetch]
    exact chunkSpans_chain _ _ _ _
  · rw [ht fetch]
    rw [List.forall_iff_forall_mem]
    intro p hp
    exact (chunkSpans_mem _ _ _ _ p hp).2

theorem processBars_append (tfSeconds : ℤ) (startT endT : Option ℤ)
    (l1 l2 : List (List ℚ)) :
    processBars tfSeconds startT endT (l1 ++ l2)
      = processBars tfSeconds startT endT l1 ++ processBars tfSeconds startT endT l2 := by
  simp [processBars, List.filterMap_append]

theorem filter_sorted_split (S : List (List ℚ)) (s m e : ℤ)
    (hsorted : S.Pairwise (fun r q => rowTime r < rowTime q))
    (hsm : s ≤ m) (hme : m ≤ e) :
    S.filter (fun r => decide (s ≤ rowTime r) && decide (rowTime r < e))
      = S.filter (fun r => decide (s ≤ rowTime r) && decide (rowTime r < m))
        ++ S.filter (fun r => decide (m ≤ rowTime r) && decide (rowTime r < e)) := by
  induction S with
  | nil => rfl
  | cons r rest ih =>
    have hp := List.pairwise_cons.mp hsorted
    have ihr := ih hp.2
    by_cases h1 : s ≤ rowTime r
    · by_cases h2 : rowTime r < m
      · have h3 : rowTime r < e := by omega
        have h4 : ¬m ≤ rowTime r := by omega
        simp only [List.filter_cons, h1, h2, h3, h4, decide_True, decide_False,
          decide_eq_true_eq, Bool.and_self, Bool.and_true, Bool.true_and,
          Bool.false_and, Bool.and_false, if_true, if_false]
        simp only [decide_eq_true_eq] at ihr ⊢
        rw [ihr]
        simp [h1, h2, h3, h4]
      · by_cases h5 : rowTime r < e
        · have h6 : m ≤ rowTime r := by omega
          have hrest1 : rest.filter
              (fun q => decide (s ≤ rowTime q) && decide (rowTime q < m)) = [] := by
            rw [List.filter_eq_nil_iff]
            intro q hq
            have := hp.1 q hq
            simp only [Bool.and_eq_true, decide_eq_true_eq, not_and]
            omega
          have hrest2 : rest.filter
              (fun q => decide (s ≤ rowTime q) && decide (rowTime q < e))
              = rest.filter (fun q => decide (m ≤ rowTime q) && decide (rowTime q < e)) := by
            apply List.filter_congr
            intro q hq
            have := hp.1 q hq
            have hiff1 : s ≤ rowTime q := by omega
            have hiff2 : m ≤ rowTime q := by omega
            simp [hiff1, hiff2]
          simp [List.filter_cons, h1, h2, h5, h6, hrest1, hrest2]
        · have h7 : ¬rowTime r < m := by omega
          simp only [List.filter_cons, h1, h2, h5, h7, decide_True, decide_False,
            Bool.and_true, Bool.and_false, Bool.true_and, if_false]
          simpa using ihr
    · have h8 : ¬m ≤ rowTime r := by omega
      simp only [List.filter_cons, h1, h8, decide_False, Bool.false_and, if_false]
      simpa using ihr

theorem runChunks_filter_oracle (tfSeconds : ℤ) (S : List (List ℚ))
    (fetch : ℤ → ℤ → Option (List (List ℚ))) (size : ℤ) (hsize : 0 < size)
    (startT endT : ℤ)
    (hfetch : ∀ a b, fetch a b
      = some (S.filter (fun r => decide (a ≤ rowTime r) && decide (rowTime r < b))))
    (hsorted : S.Pairwise (fun r q => rowTime r < rowTime q)) :
    ∀ c : ℤ,
      (runChunks size hsize fetch (processBars tfSeconds (some startT) (some endT)) c endT).2
        = processBars tfSeconds (some startT) (some endT)
            (S.filter (fun r => decide (c ≤ rowTime r) && decide (rowTime r < endT))) := by
  intro c
  generalize hn : (endT - c).toNat = n
  induction n using Nat.strong_induction_on generalizing c with
  | _ n ih =>
    by_cases h : c < endT
    · rw [runChunks]
      simp only [dif_pos h]
      have hlt : (endT - min (c + size) endT).toNat < n := by
        have h1 : c < min (c + size) endT := lt_min (by omega) h
        rcases min_cases (c + size) endT with ⟨hmeq, _⟩ | ⟨hmeq, _⟩ <;> omega
      rw [hfetch c (min (c + size) endT)]
      simp only []
      rw [ih _ hlt (min (c + size) endT) rfl]
      rw [← processBars_append]
      congr 1
      exact (filter_sorted_split S c (min (c + size) endT) endT hsorted
        (le_of_lt (lt_min (by omega) h)) (min_le_right _ _)).symm
    · rw [runChunks]
      simp only [dif_neg h]
      have hnil : S.filter (fun r => decide (c ≤ rowTime r) && decide (rowTime r < endT))
          = [] := by
        rw [List.filter_eq_nil_iff]
        intro q _
        simp only [Bool.and_eq_true, decide_eq_true_eq, not_and]
        omega
      rw [hnil]
      rfl

theorem processBarRow_tsOpen (tfSeconds : ℤ) (startT endT : Option ℤ)
    (row : List ℚ) (b : Bar) (h : processBarRow tfSeconds startT endT row = some b) :
    b.tsOpen = rowTime row := by
  unfold processBarRow at h
  repeat' split at h
  all_goals first
    | exact Option.noConfusion h
    | (injection h with h2; rw [← h2])

theorem processBarRow_mem_range (tfSeconds s e : ℤ) (row : List ℚ) (b : Bar)
    (h : processBarRow tfSeconds (some s) (some e) row = some b) :
    s ≤ b.tsOpen ∧ b.tsOpen < e := by
  unfold processBarRow at h
  split at h
  · exact Option.noConfusion h
  · split at h
    · exact Option.noConfusion h
    · rename_i hcond
      injection h with h2
      have hb : b.tsOpen = rowTime row := by rw [← h2]
      rw [hb]
      simp only [Bool.or_eq_true, decide_eq_true_eq, not_or] at hcond
      exact ⟨by omega, by omega⟩

theorem processBars_pairwise (tfSeconds : ℤ) (startT endT : Option ℤ)
    (rows : List (List ℚ))
    (h : rows.Pairwise (fun r q => rowTime r < rowTime q)) :
    (processBars tfSeconds startT endT rows).Pairwise (fun b b2 => b.tsOpen < b2.tsOpen) := by
  unfold processBars
  apply List.Pairwise.filterMap _ _ h
  intro r q hrq b hb b2 hb2
  rw [Option.mem_def] at hb hb2
  rw [processBarRow_tsOpen tfSeconds startT endT r b hb,
    processBarRow_tsOpen tfSeconds startT endT q b2 hb2]
  exact hrq

/-- C5 counterexample: the paginated bar fetch does NOT guarantee strictly
increasing open times, duplicate-freedom across adjacent chunks, or
chunk-size independence on the code as written. `_process_bars` filters each
chunk's rows only against the overall `[request.start, request.end)` bound
(data.py lines 583-586), never against the chunk's own bounds, and no dedup
is applied across chunks. Under MT5's end-inclusive `copy_rates_range`
(`inclusiveEdgeFetch`), the bar opening at time 15 — an interior chunk edge
for chunk size 15 over `[0, 30)` — is served by both adjacent chunk queries
and survives the overall filter twice: the two-chunk fetch emits it twice
(not strictly increasing, duplicate open time across adjacent chunks), while
the one-chunk fetch (size 30) emits it once, so the output depends on the
chunk size. -/
theorem rangeFetch_inclusive_edge_duplicates_cex :
    (runChunks 15 (by norm_num) inclusiveEdgeFetch
        (processBars 60 (some 0) (some 30)) 0 30).2
      = [{ tsOpen := 15, openPx := 1, highPx := 2, lowPx := 3, closePx := 4,
           volume := 5, tsEventNs := 75000000000 },
         { tsOpen := 15, openPx := 1, highPx := 2, lowPx := 3, closePx := 4,
           volume := 5, tsEventNs := 75000000000 }]
    ∧ (runChunks 30 (by norm_num) inclusiveEdgeFetch
        (processBars 60 (some 0) (some 30)) 0 30).2
      = [{ tsOpen := 15, openPx := 1, highPx := 2, lowPx := 3, closePx := 4,
           volume := 5, tsEventNs := 75000000000 }]
    ∧ ¬(runChunks 15 (by norm_num) inclusiveEdgeFetch
        (processBars 60 (some 0) (some 30)) 0 30).2.Pairwise
          (fun b b2 => b.tsOpen < b2.tsOpen)
    ∧ (runChunks 15 (by norm_num) inclusiveEdgeFetch
        (processBars 60 (some 0) (some 30)) 0 30).2
      ≠ (runChunks 30 (by norm_num) inclusiveEdgeFetch
          (processBars 60 (some 0) (some 30)) 0 30).2 := by
  have e15 : (runChunks 15 (by norm_num) inclusiveEdgeFetch
      (processBars 60 (some 0) (some 30)) 0 30).2
      = [{ tsOpen := 15, openPx := 1, highPx := 2, lowPx := 3, closePx := 4,
           volume := 5, tsEventNs := 75000000000 },
         { tsOpen := 15, openPx := 1, highPx := 2, lowPx := 3, closePx := 4,
           volume := 5, tsEventNs := 75000000000 }] := by
    rw [runChunks, dif_pos (show (0 : ℤ) < 30 by norm_num)]
    have m1 : min ((0 : ℤ) + 15) 30 = 15 := by omega
    simp only [m1]
    rw [runChunks, dif_pos (show (15 : ℤ) < 30 by norm_num)]
    have m2 : min ((15 : ℤ) + 15) 30 = 30 := by omega
    simp only [m2]
    rw [runChunks, dif_neg (lt_irrefl (30 : ℤ))]
    simp only [inclusiveEdgeFetch, barSeriesEdgeExample]
    decide
  have e30 : (runChunks 30 (by norm_num) inclusiveEdgeFetch
      (processBars 60 (some 0) (some 30)) 0 30).2
      = [{ tsOpen := 15, openPx := 1, highPx := 2, lowPx := 3, closePx := 4,
           volume := 5, tsEventNs := 75000000000 }] := by
    rw [runChunks, dif_pos (show (0 : ℤ) < 30 by norm_num)]
    have m1 : min ((0 : ℤ) + 30) 30 = 30 := by omega
    simp only [m1]
    rw [runChunks, dif_neg (lt_irrefl (30 : ℤ))]
    simp only [inclusiveEdgeFetch, barSeriesEdgeExample]
    decide
  refine ⟨e15, e30, ?_, ?_⟩
  · rw [e15]
    decide
  · rw [e15, e30]
    decide

/-- C5 (amended): the chunk-size idempotence and the
strictly-increasing/duplicate-free invariant hold only conditionally: IF the
remote serves each chunk query `[a, b)` exactly half-open — exactly the rows
of one globally time-sorted series with open time in `[a, b)`, with no edge
over-return — then the reassembled output of the paginated bar fetch (30-day
chunks, and any other chunk size) equals the single-pass processing of the
series restricted to the overall `[start, end)` window, is strictly
increasing in open time with no duplicate open times across adjacent chunks,
and any two chunk sizes yield the same bar list. The code itself contains no
interior-edge filtering or cross-chunk dedup to enforce this against an
end-inclusive remote (see the counterexample). -/
theorem rangeFetch_chunk_size_independent (tfSeconds : ℤ) (S : List (List ℚ))
    (fetch : ℤ → ℤ → Option (List (List ℚ))) (size : ℤ) (hsize : 0 < size)
    (startT endT : ℤ)
    (hfetch : ∀ a b, fetch a b
      = some (S.filter (fun r => decide (a ≤ rowTime r) && decide (rowTime r < b))))
    (hsorted : S.Pairwise (fun r q => rowTime r < rowTime q)) :
    (requestBarsRange tfSeconds fetch startT endT).2
      = processBars tfSeconds (some startT) (some endT)
          (S.filter (fun r => decide (startT ≤ rowTime r) && decide (rowTime r < endT)))
    ∧ (runChunks size hsize fetch (processBars tfSeconds (some startT) (some endT))
        startT endT).2
      = processBars tfSeconds (some startT) (some endT)
          (S.filter (fun r => decide (startT ≤ rowTime r) && decide (rowTime r < endT)))
    ∧ (requestBarsRange tfSeconds fetch startT endT).2.Pairwise
        (fun b b2 => b.tsOpen < b2.tsOpen)
    ∧ (∀ (size2 : ℤ) (hsize2 : 0 < size2) (fetch2 : ℤ → ℤ → Option (List (List ℚ))),
        (∀ a b, fetch2 a b
          = some (S.filter (fun r => decide (a ≤ rowTime r) && decide (rowTime r < b)))) →
        (runChunks size2 hsize2 fetch2 (processBars tfSeconds (some startT) (some endT))
            startT endT).2
          = (runChunks size hsize fetch (processBars tfSeconds (some startT) (some endT))
              startT endT).2) := by
  have hbar := runChunks_filter_oracle tfSeconds S fetch barChunkSeconds (by decide)
    startT endT hfetch hsorted startT
  have hgen := runChunks_filter_oracle tfSeconds S fetch size hsize
    startT endT hfetch hsorted startT
  refine ⟨hbar, hgen, ?_, ?_⟩
  · rw [show (requestBarsRange tfSeconds fetch startT endT).2
        = (runChunks barChunkSeconds (by decide) fetch
            (processBars tfSeconds (some startT) (some endT)) startT endT).2 from rfl, hbar]
    exact processBars_pairwise _ _ _ _ (List.Pairwise.filter _ hsorted)
  · intro size2 hsize2 fetch2 hfetch2
    rw [runChunks_filter_oracle tfSeconds S fetch2 size2 hsize2 startT endT
      hfetch2 hsorted startT, hgen]

/-- C5 witness: the two-bar series with a consistent oracle, chunk size 15
over the window `[0, 30)`. -/
theorem rangeFetch_chunk_size_independent_witness :
    (runChunks 15 (by norm_num)
        (fun a b => some (barSeriesExample.filter
          (fun r => decide (a ≤ rowTime r) && decide (rowTime r < b))))
        (processBars 60 (some 0) (some 30)) 0 30).2
      = processBars 60 (some 0) (some 30)
          (barSeriesExample.filter
            (fun r => decide ((0 : ℤ) ≤ rowTime r) && decide (rowTime r < 30))) :=
  (rangeFetch_chunk_size_independent 60 barSeriesExample
    (fun a b => some (barSeriesExample.filter
      (fun r => decide (a ≤ rowTime r) && decide (rowTime r < b))))
    15 (by norm_num) 0 30 (fun a b => rfl) (by decide)).2.1

/-- C6 counterexample: `Mt5Client.fetch_bars` applies no `[start, end)`
post-filter: with a remote over-returning a 6-field row at time 2592100 for
the chunk query `[0, 100)`, the returned bar list contains that bar even
though its open time lies outside `[0, 100)`. -/
theorem fetchBars_no_range_filter_cex :
    (fetchBarsRange (fun _ _ => some [[2592100, 1, 1, 1, 1, 10]]) 0 100).2
      = [{ time := 2592100, openV := 1, highV := 1, lowV := 1, closeV := 1,
           tick_volume := 10, spread := 0, real_volume := 0 }]
    ∧ ¬((0 : ℚ) ≤ 2592100 ∧ (2592100 : ℚ) < 100) := by
  constructor
  · rw [fetchBarsRange, runChunks]
    rw [dif_pos (show (0 : ℤ) < 100 by norm_num)]
    have h1 : min ((0 : ℤ) + barChunkSeconds) 100 = 100 :=
      min_eq_right (by norm_num [barChunkSeconds])
    simp only [h1]
    rw [runChunks, dif_neg (lt_irrefl (100 : ℤ))]
    simp [fetchBarsHandle, formatBar]
  · norm_num

/-- C6 (amended): rows with fewer than 6 positional fields are dropped as
malformed by both bar paths (dropping them from the input changes nothing);
the data client's `_process_bars` keeps, for a range request, only bars whose
open time lies in `[start, end)`; but the high-level `Mt5Client.fetch_bars`
performs no `[start, end)` post-filtering, so rows over-returned at chunk
edges appear in its output. -/
theorem barRows_filtering_spec :
    (∀ (tfSeconds s e : ℤ) (rates : List (List ℚ)),
      (processBars tfSeconds (some s) (some e) rates).Forall
        (fun b => s ≤ b.tsOpen ∧ b.tsOpen < e))
    ∧ (∀ (tfSeconds : ℤ) (startT endT : Option ℤ) (rates : List (List ℚ)),
        processBars tfSeconds startT endT rates
          = processBars tfSeconds startT endT
              (rates.filter (fun r => decide (6 ≤ r.length))))
    ∧ (∀ rows : List (List ℚ),
        fetchBarsHandle rows
          = fetchBarsHandle (rows.filter (fun r => decide (6 ≤ r.length)))) := by
  refine ⟨?_, ?_, ?_⟩
  · intro tf s e rates
    rw [List.forall_iff_forall_mem]
    intro b hb
    rw [processBars, List.mem_filterMap] at hb
    obtain ⟨row, _, hrow⟩ := hb
    exact processBarRow_mem_range tf s e row b hrow
  · intro tf st en rates
    induction rates with
    | nil => rfl
    | cons r rest ih =>
      by_cases h : 6 ≤ r.length
      · have hd : decide (6 ≤ r.length) = true := decide_eq_true h
        simp only [processBars, List.filterMap_cons, List.filter_cons, hd, if_true]
        simp only [processBars] at ih
        rw [ih]
      · have hlen : r.length < 6 := by omega
        have hnone : processBarRow tf st en r = none := by
          simp [processBarRow, hlen]
        have hd : decide (6 ≤ r.length) = false := decide_eq_false h
        simp only [processBars, List.filterMap_cons, List.filter_cons, hd,
          if_false, hnone]
        simpa [processBars] using ih
  · intro rows
    induction rows with
    | nil => rfl
    | cons r rest ih =>
      by_cases h : 6 ≤ r.length
      · have hd : decide (6 ≤ r.length) = true := decide_eq_true h
        simp only [fetchBarsHandle] at ih
        simp only [fetchBarsHandle, List.filter_cons, hd, if_true,
          List.filterMap_cons, ih]
      · have hd : decide (6 ≤ r.length) = false := decide_eq_false h
        have hnone : (if 6 ≤ r.length then some (formatBar r) else none) = none :=
          if_neg h
        simp only [fetchBarsHandle] at ih
        simp only [fetchBarsHandle, List.filter_cons, hd, if_false,
          List.filterMap_cons, hnone, ih, Bool.false_eq_true]

end NautilusMt5
